import Mathlib

/- Formal model of the captcha-mcp-research repository.

   The development shallowly embeds the parts of the code that the
   verified properties are about:
   - `mcp_client.py`: the SSE demultiplexer (`_process_sse_message`),
     pending-call map, RPC wait/timeout logic (`_rpc`), connector
     teardown (`_shutdown`), POST endpoint fallback (`_post_variants`,
     `_post_rpc`), and the tool catalog stored by `list_tools`.
   - `smoke.py`: protocol version negotiation in `initialize`.
   - `executor.py`: snapshot text extraction (`extract_text_by_id`),
     verdict classification (`parse_verdict_text`), the orchestration
     step (`invoke_server_node`, `pick_next_node`, `should_continue`)
     and its randomized backoff.
   - `selection.py`: the attempt budget set by `select_candidates_node`.

   Python dicts are modelled as association lists (first binding of a
   key wins, keys unique in any state the program builds); Python floats
   used for wall-clock times and random fractions are modelled as
   rationals. -/

namespace CaptchaMcp

/-- Association-list lookup, modelling Python dict access `m.get(k)`. -/
def lookupKey {κ β : Type} [DecidableEq κ] (k : κ) : List (κ × β) → Option β
  | [] => none
  | (a, b) :: rest => if a = k then some b else lookupKey k rest

/-- Removal of a key, modelling Python dict `m.pop(k, None)`. -/
def eraseKey {κ β : Type} [DecidableEq κ] (k : κ) : List (κ × β) → List (κ × β)
  | [] => []
  | (a, b) :: rest => if a = k then rest else (a, b) :: eraseKey k rest

/-- Insertion or update, modelling Python dict assignment `m[k] = v`. -/
def setKey {κ β : Type} [DecidableEq κ] (k : κ) (v : β) : List (κ × β) → List (κ × β)
  | [] => [(k, v)]
  | (a, b) :: rest => if a = k then (k, v) :: rest else (a, b) :: setKey k v rest

/-- The keys of an association list. -/
def keysOf {κ β : Type} (m : List (κ × β)) : List κ := m.map Prod.fst

section AssocLemmas

variable {κ β : Type} [DecidableEq κ]

theorem lookupKey_eq_none_iff {k : κ} {m : List (κ × β)} :
    lookupKey k m = none ↔ k ∉ keysOf m := by
  induction m with
  | nil => simp [lookupKey, keysOf]
  | cons hd tl ih =>
    obtain ⟨a, b⟩ := hd
    by_cases h : a = k
    · simp [lookupKey, keysOf, h]
    · simp [lookupKey, keysOf, h, Ne.symm h, ih]

theorem lookupKey_isSome_of_mem {k : κ} {v : β} {m : List (κ × β)}
    (h : (k, v) ∈ m) : (lookupKey k m).isSome := by
  induction m with
  | nil => simp at h
  | cons hd tl ih =>
    obtain ⟨a, b⟩ := hd
    rcases List.mem_cons.mp h with h1 | h2
    · cases h1; simp [lookupKey]
    · by_cases ha : a = k <;> simp [lookupKey, ha, ih h2]

theorem lookupKey_of_mem_nodup {k : κ} {v : β} {m : List (κ × β)}
    (hnd : (keysOf m).Nodup) (h : (k, v) ∈ m) : lookupKey k m = some v := by
  induction m with
  | nil => simp at h
  | cons hd tl ih =>
    obtain ⟨a, b⟩ := hd
    simp only [keysOf, List.map_cons, List.nodup_cons] at hnd
    rcases List.mem_cons.mp h with h1 | h2
    · cases h1; simp [lookupKey]
    · have hak : a ≠ k := by
        intro he; subst he
        exact hnd.1 (List.mem_map.mpr ⟨(a, v), h2, rfl⟩)
      simp [lookupKey, hak]
      exact ih hnd.2 h2

theorem keysOf_eraseKey_sublist (k : κ) (m : List (κ × β)) :
    List.Sublist (keysOf (eraseKey k m)) (keysOf m) := by
  induction m with
  | nil => simp [eraseKey, keysOf]
  | cons hd tl ih =>
    obtain ⟨a, b⟩ := hd
    by_cases h : a = k
    · simp only [eraseKey, if_pos h, keysOf, List.map_cons]
      exact List.sublist_cons_self _ _
    · simp only [eraseKey, if_neg h, keysOf, List.map_cons]
      exact List.Sublist.cons₂ _ ih

theorem mem_keysOf_eraseKey {x k : κ} {m : List (κ × β)}
    (h : x ∈ keysOf (eraseKey k m)) : x ∈ keysOf m :=
  (keysOf_eraseKey_sublist k m).mem h

theorem nodup_keysOf_eraseKey {k : κ} {m : List (κ × β)}
    (h : (keysOf m).Nodup) : (keysOf (eraseKey k m)).Nodup :=
  h.sublist (keysOf_eraseKey_sublist k m)

theorem not_mem_keysOf_eraseKey_self {k : κ} {m : List (κ × β)}
    (hnd : (keysOf m).Nodup) : k ∉ keysOf (eraseKey k m) := by
  induction m with
  | nil => simp [eraseKey, keysOf]
  | cons hd tl ih =>
    obtain ⟨a, b⟩ := hd
    simp only [keysOf, List.map_cons, List.nodup_cons] at hnd
    by_cases h : a = k
    · subst h
      simpa [eraseKey, keysOf] using hnd.1
    · simp only [eraseKey, if_neg h, keysOf, List.map_cons, List.mem_cons]
      push_neg
      exact ⟨fun he => (h he.symm).elim, ih hnd.2⟩

theorem mem_eraseKey_of_ne {a k : κ} {b : β} {m : List (κ × β)}
    (h : (a, b) ∈ m) (hne : a ≠ k) : (a, b) ∈ eraseKey k m := by
  induction m with
  | nil => simp at h
  | cons hd tl ih =>
    obtain ⟨x, y⟩ := hd
    rcases List.mem_cons.mp h with h1 | h2
    · cases h1
      simp [eraseKey, hne]
    · by_cases hx : x = k
      · simp [eraseKey, hx]
        exact h2
      · simp [eraseKey, hx]
        right
        exact ih h2

theorem mem_keysOf_of_lookupKey_some {k : κ} {v : β} {m : List (κ × β)}
    (h : lookupKey k m = some v) : k ∈ keysOf m := by
  by_contra hk
  rw [← lookupKey_eq_none_iff] at hk
  rw [h] at hk
  exact Option.noConfusion hk

end AssocLemmas

/- ===== Response demultiplexer (`MCPConnector._process_sse_message`,
   `mcp_client.py` lines 163-196) =====

   The pending-call map `self._pending : Dict[int, asyncio.Future]` is
   modelled as an association list from the integer RPC id to the
   future's `done()` flag.  A delivered SSE envelope is reduced to its
   `id` field: `none` models a missing or non-integer id. -/

/-- The pending-call map: RPC id paired with the waiter's done flag. -/
abbrev Pending := List (Int × Bool)

/-- One SSE envelope dispatch, translating lines 189-196 of
`mcp_client.py`: an integer id that is a key of the pending map pops the
entry and fulfills the future if it is not yet done (boolean result
`true`); any other envelope leaves the map unchanged and is only logged
as unmatched (result `false`). -/
def processOne (p : Pending) (envId : Option Int) : Pending × Bool :=
  match envId with
  | some i =>
    match lookupKey i p with
    | some d => (eraseKey i p, !d)
    | none => (p, false)
  | none => (p, false)

/-- Iterated dispatch of a delivery sequence; returns the final pending
map and the ids whose waiters were fulfilled, in order. -/
def processAll (p : Pending) : List (Option Int) → Pending × List Int
  | [] => (p, [])
  | d :: ds =>
    match d with
    | some i =>
      match lookupKey i p with
      | some b =>
        let rest := processAll (eraseKey i p) ds
        if b then rest else (rest.1, i :: rest.2)
      | none => processAll p ds
    | none => processAll p ds

/-- How many times the waiter of `i` is fulfilled by a delivery run. -/
def countFulfill (p : Pending) (ds : List (Option Int)) (i : Int) : Nat :=
  (processAll p ds).2.count i

theorem countFulfill_eq_zero_of_not_mem {i : Int} :
    ∀ {p : Pending} (ds : List (Option Int)), i ∉ keysOf p → countFulfill p ds i = 0 := by
  intro p ds
  induction ds generalizing p with
  | nil => intro _; simp [countFulfill, processAll]
  | cons d ds ih =>
    intro h
    match d with
    | none => simpa [countFulfill, processAll] using ih h
    | some j =>
      cases hj : lookupKey j p with
      | none => simpa [countFulfill, processAll, hj] using ih h
      | some b =>
        have hji : j ≠ i := by
          intro he; subst he
          exact h (mem_keysOf_of_lookupKey_some hj)
        have h' : i ∉ keysOf (eraseKey j p) := fun hc => h (mem_keysOf_eraseKey hc)
        have := ih (p := eraseKey j p) h'
        cases b with
        | true => simpa [countFulfill, processAll, hj] using this
        | false =>
          simp only [countFulfill, processAll, hj] at this ⊢
          simpa [List.count_cons, hji] using this

theorem countFulfill_le_one {i : Int} :
    ∀ {p : Pending} (ds : List (Option Int)), (keysOf p).Nodup → countFulfill p ds i ≤ 1 := by
  intro p ds
  induction ds generalizing p with
  | nil => intro _; simp [countFulfill, processAll]
  | cons d ds ih =>
    intro hnd
    match d with
    | none => simpa [countFulfill, processAll] using ih hnd
    | some j =>
      cases hj : lookupKey j p with
      | none => simpa [countFulfill, processAll, hj] using ih hnd
      | some b =>
        have hnd' := nodup_keysOf_eraseKey (k := j) hnd
        by_cases hji : j = i
        · subst hji
          have h0 : countFulfill (eraseKey j p) ds j = 0 :=
            countFulfill_eq_zero_of_not_mem ds (not_mem_keysOf_eraseKey_self hnd)
          cases b with
          | true => simpa [countFulfill, processAll, hj] using ih hnd'
          | false =>
            simp only [countFulfill, processAll, hj] at h0 ⊢
            simp [List.count_cons, h0]
        · cases b with
          | true => simpa [countFulfill, processAll, hj] using ih hnd'
          | false =>
            have := ih (p := eraseKey j p) hnd'
            simp only [countFulfill, processAll, hj] at this ⊢
            simpa [List.count_cons, hji] using this

theorem countFulfill_eq_one {i : Int} :
    ∀ {p : Pending} (ds : List (Option Int)), (keysOf p).Nodup → (i, false) ∈ p →
      some i ∈ ds → countFulfill p ds i = 1 := by
  intro p ds
  induction ds generalizing p with
  | nil => intro _ _ h; simp at h
  | cons d ds ih =>
    intro hnd hmem hds
    by_cases hd : d = some i
    · subst hd
      have hj : lookupKey i p = some false := lookupKey_of_mem_nodup hnd hmem
      have h0 : countFulfill (eraseKey i p) ds i = 0 :=
        countFulfill_eq_zero_of_not_mem ds (not_mem_keysOf_eraseKey_self hnd)
      simp only [countFulfill, processAll, hj] at h0 ⊢
      simp [List.count_cons, h0]
    · have hds' : some i ∈ ds := by
        rcases List.mem_cons.mp hds with h1 | h2
        · exact absurd h1.symm hd
        · exact h2
      match d with
      | none => simpa [countFulfill, processAll] using ih hnd hmem hds'
      | some j =>
        have hji : j ≠ i := fun he => hd (by rw [he])
        cases hj : lookupKey j p with
        | none => simpa [countFulfill, processAll, hj] using ih hnd hmem hds'
        | some b =>
          have hnd' := nodup_keysOf_eraseKey (k := j) hnd
          have hmem' : (i, false) ∈ eraseKey j p := mem_eraseKey_of_ne hmem (Ne.symm hji)
          have := ih (p := eraseKey j p) hnd' hmem' hds'
          cases b with
          | true => simpa [countFulfill, processAll, hj] using this
          | false =>
            simp only [countFulfill, processAll, hj] at this ⊢
            simpa [List.count_cons, hji] using this

/-- C2: For any sequence of push-channel deliveries processed by the
demultiplexer, a delivered envelope whose integer id matches a
still-pending call fulfills that call's waiter exactly once (the pending
entry is removed before fulfillment), and a delivery whose id is unknown
or already fulfilled changes no waiter and is only logged as
unmatched. -/
theorem demux_single_fulfillment (p : Pending) (ds : List (Option Int)) (i : Int)
    (hnd : (keysOf p).Nodup) :
    countFulfill p ds i ≤ 1
    ∧ ((i, false) ∈ p → some i ∈ ds → countFulfill p ds i = 1)
    ∧ (i ∉ keysOf p → processOne p (some i) = (p, false))
    ∧ ((processOne p (some i)).2 = true → i ∉ keysOf (processOne p (some i)).1) := by
  refine ⟨countFulfill_le_one ds hnd, fun hm hd => countFulfill_eq_one ds hnd hm hd, ?_, ?_⟩
  · intro h
    have : lookupKey i p = none := lookupKey_eq_none_iff.mpr h
    simp [processOne, this]
  · intro _
    cases hj : lookupKey i p with
    | none => simp [processOne, hj, lookupKey_eq_none_iff.mp hj]
    | some b =>
      simp [processOne, hj]
      exact not_mem_keysOf_eraseKey_self hnd

/-- Closed instance of `demux_single_fulfillment`: with calls 1 (pending)
and 2 (already done) waiting, the delivery run `[1, 1, none]` fulfills
call 1 exactly once. -/
theorem demux_single_fulfillment_witness :
    countFulfill [(1, false), (2, true)] [some 1, some 1, none] 1 = 1 :=
  (demux_single_fulfillment [(1, false), (2, true)] [some 1, some 1, none] 1
    (by decide)).2.1 (by decide) (by decide)

/- ===== RPC wait and timeout (`MCPConnector._rpc`, `mcp_client.py`
   lines 294-323) =====

   After the POST, when the response was not handled inline, `_rpc`
   awaits the SSE waiter with `asyncio.wait_for`.  The delivered
   envelope is reduced to its `error` / `result` membership flags;
   `none` models the timeout branch. -/

/-- Flags of a delivered JSON-RPC envelope: whether the object carries
an `error` member and whether it carries a `result` member. -/
structure SseEnv where
  hasError : Bool
  hasResult : Bool

/-- Outcome of the SSE wait in `_rpc`. -/
inductive RpcOutcome where
  | ok
  | rpcFail (msg : String)
  | timedOut
deriving DecidableEq

/-- The SSE wait of `_rpc` (lines 311-323): a delivery (already popped
from the pending map by the demultiplexer, `processOne`) yields the
remote error, a missing-result error, or the result; a timeout pops the
waiter from the pending map and fails with a timeout error. -/
def rpcAwait (p : Pending) (rpcId : Int) (delivery : Option SseEnv) : RpcOutcome × Pending :=
  match delivery with
  | none => (.timedOut, eraseKey rpcId p)
  | some env =>
    let p' := (processOne p (some rpcId)).1
    if env.hasError then (.rpcFail "remote error", p')
    else if env.hasResult then (.ok, p') else (.rpcFail "missing result", p')

/-- C3: A call not answered inline waits until a matching asynchronous
result is delivered or the timeout elapses; on timeout the call fails
with a timeout error and its waiter is removed from the pending map, so
any later delivery for that identifier is dropped (fulfilling no waiter
and changing no state) and is never delivered to a different caller. -/
theorem rpc_timeout_waiter_removed (p : Pending) (rpcId : Int)
    (hnd : (keysOf p).Nodup) :
    (rpcAwait p rpcId none).1 = .timedOut
    ∧ rpcId ∉ keysOf (rpcAwait p rpcId none).2
    ∧ processOne (rpcAwait p rpcId none).2 (some rpcId) = ((rpcAwait p rpcId none).2, false)
    ∧ (∀ env, (rpcAwait p rpcId (some env)).1 ≠ .timedOut) := by
  have h2 : rpcId ∉ keysOf (rpcAwait p rpcId none).2 := by
    simp only [rpcAwait]
    exact not_mem_keysOf_eraseKey_self hnd
  refine ⟨rfl, h2, ?_, ?_⟩
  · have : lookupKey rpcId (rpcAwait p rpcId none).2 = none := lookupKey_eq_none_iff.mpr h2
    simp [processOne, this]
  · intro env
    cases he : env.hasError
    · cases hr : env.hasResult <;> simp [rpcAwait, he, hr]
    · simp [rpcAwait, he]

/-- Closed instance of `rpc_timeout_waiter_removed`: call 5 times out,
its waiter is removed, and a late delivery for id 5 is a no-op. -/
theorem rpc_timeout_waiter_removed_witness :
    (rpcAwait [(5, false)] 5 none).1 = .timedOut
    ∧ processOne (rpcAwait [(5, false)] 5 none).2 (some 5)
        = ((rpcAwait [(5, false)] 5 none).2, false) :=
  ⟨(rpc_timeout_waiter_removed [(5, false)] 5 (by decide)).1,
   (rpc_timeout_waiter_removed [(5, false)] 5 (by decide)).2.2.1⟩

/- ===== Connector teardown (`MCPConnector._shutdown`, `mcp_client.py`
   lines 120-145) =====

   After cancelling the reader task, `_shutdown` sets a connection-closed
   exception on every pending future that is not done and clears the
   pending map. -/

/-- Teardown of the pending map: returns the cleared map and the ids of
the calls failed with the connection-closed error (lines 138-141). -/
def shutdownConn (p : Pending) : Pending × List Int :=
  ([], (p.filter (fun e => !e.2)).map Prod.fst)

/-- C6: On connector teardown every call still in the pending map is
failed with a connection-closed error, the pending map is emptied, and
no call result is delivered after teardown (any later delivery dispatch
fulfills nothing). -/
theorem shutdown_fails_pending (p : Pending) :
    (shutdownConn p).1 = []
    ∧ (∀ i : Int, i ∈ (shutdownConn p).2 ↔ (i, false) ∈ p)
    ∧ (∀ d, processOne (shutdownConn p).1 d = ([], false)) := by
  refine ⟨rfl, ?_, ?_⟩
  · intro i
    simp only [shutdownConn, List.mem_map, List.mem_filter]
    constructor
    · rintro ⟨⟨a, b⟩, ⟨hmem, hb⟩, ha⟩
      simp only at ha hb
      subst ha
      cases b
      · exact hmem
      · simp at hb
    · intro h
      exact ⟨(i, false), ⟨h, rfl⟩, rfl⟩
  · intro d
    cases d <;> simp [shutdownConn, processOne, lookupKey]

/- ===== POST endpoint fallback (`MCPConnector._post_variants` and
   `_post_rpc`, `mcp_client.py` lines 200-275, and the recording of the
   last working variant at line 307) ===== -/

/-- Prefix test on lists, auxiliary to the substring test. -/
def listIsPrefixOf {α : Type} [DecidableEq α] : List α → List α → Bool
  | [], _ => true
  | _ :: _, [] => false
  | a :: as, b :: bs => if a = b then listIsPrefixOf as bs else false

/-- Substring test on lists: the pattern is a prefix of some suffix. -/
def listContainsSub {α : Type} [DecidableEq α] (pat : List α) : List α → Bool
  | [] => pat.isEmpty
  | b :: rest => listIsPrefixOf pat (b :: rest) || listContainsSub pat rest

/-- Substring test, modelling Python's `pat in s`. -/
def strContains (s pat : String) : Bool := listContainsSub pat.data s.data

/-- ASCII lower-casing of one character. -/
def lowerChar (c : Char) : Char :=
  if 65 ≤ c.toNat ∧ c.toNat ≤ 90 then Char.ofNat (c.toNat + 32) else c

/-- Lower-casing, modelling Python's `s.lower()` (the strings the code
inspects are ASCII). -/
def strToLower (s : String) : String := ⟨s.data.map lowerChar⟩

/-- One POST endpoint variant: url, extra headers, and its label. -/
structure Variant where
  url : String
  headers : List (String × String)
  label : String

/-- Query-string session suffixing from lines 222 and 227:
`url + ('&' if '?' in url else '?') + 'sessionId=' + sid`. -/
def appendSessionId (u s : String) : String :=
  u ++ (if strContains u "?" then "&" else "?") ++ "sessionId=" ++ s

/-- The base candidate list of `_post_variants` (lines 212-228): the
primary `/mcp` path, the legacy `/messages` path, then, when a session
id has been captured (Python truthiness: a non-empty string), each
suffixed with the session id. -/
def candVariants (b m : String) (sid : Option String) : List Variant :=
  [⟨b, [], "mcp"⟩, ⟨m, [], "messages"⟩] ++
    (match sid with
     | some s =>
       if s = "" then []
       else [⟨appendSessionId b s, [("X-Session-Id", s)], "mcp?sid"⟩,
             ⟨appendSessionId m s, [("X-Session-Id", s)], "messages?sid"⟩]
     | none => [])

/-- `_post_variants` (lines 230-234): when a last-working label is
recorded (and truthy), that variant is moved to the front and the others
keep their relative order. -/
def postVariants (b m : String) (sid : Option String) (lastWorking : Option String) :
    List Variant :=
  let cand := candVariants b m sid
  match lastWorking with
  | none => cand
  | some l =>
    if l = "" then cand
    else cand.filter (fun v => v.label == l) ++ cand.filter (fun v => v.label != l)

/-- Line 307: `self._last_working_label = label or self._last_working_label`. -/
def recordLastWorking (old : Option String) (lab : String) : Option String :=
  if lab = "" then old else some lab

/-- A POST attempt's observable response: HTTP status, and the outcome
of the inline decode chain of lines 255-271 (the inline-JSON attempt
then the inline-SSE attempt; `none` when neither yields an object). -/
structure PostResponse where
  status : Nat
  decoded : Option SseEnv

/-- `_post_rpc` (lines 244-275): try the variants in order; a non-200
status or an undecodable 200 body moves on to the next variant; the
first variant with a decodable 200 body returns its envelope and label;
`none` models the final `raise MCPError(...)` when every variant
failed. -/
def postRpc (respond : Variant → PostResponse) : List Variant → Option (SseEnv × String)
  | [] => none
  | v :: rest =>
    let r := respond v
    if r.status ≠ 200 then postRpc respond rest
    else
      match r.decoded with
      | some obj => some (obj, v.label)
      | none => postRpc respond rest

/-- C4: When a POST attempt yields a non-decodable body or a
not-found-class (non-success) status, the client tries the next of the
fixed ordered endpoint variants (primary path, legacy alternate path,
each optionally suffixed with the session identifier, in that order);
the first variant with a decodable success response wins; and after a
variant's label is recorded as last working, every subsequent call tries
that variant first, keeping the others in their original order. -/
theorem post_endpoint_fallback (b m s l : String) (old sid : Option String)
    (respond : Variant → PostResponse) (v : Variant) (rest : List Variant) :
    ((candVariants b m (some s)).map Variant.label
        = if s = "" then ["mcp", "messages"]
          else ["mcp", "messages", "mcp?sid", "messages?sid"])
    ∧ ((candVariants b m none).map Variant.label = ["mcp", "messages"])
    ∧ ((respond v).status ≠ 200 → postRpc respond (v :: rest) = postRpc respond rest)
    ∧ ((respond v).status = 200 → (respond v).decoded = none →
         postRpc respond (v :: rest) = postRpc respond rest)
    ∧ (∀ obj, (respond v).status = 200 → (respond v).decoded = some obj →
         postRpc respond (v :: rest) = some (obj, v.label))
    ∧ (l ∈ (candVariants b m sid).map Variant.label → l ≠ "" →
         (postVariants b m sid (recordLastWorking old l)).map Variant.label
           = l :: ((candVariants b m sid).map Variant.label).erase l) := by
  refine ⟨?_, ?_, ?_, ?_, ?_, ?_⟩
  · by_cases hs : s = "" <;> simp [candVariants, hs]
  · simp [candVariants]
  · intro h
    simp [postRpc, h]
  · intro h hd
    simp [postRpc, h, hd]
  · intro obj h hd
    simp [postRpc, h, hd]
  · intro hl hne
    have hrec : recordLastWorking old l = some l := by simp [recordLastWorking, hne]
    rw [hrec]
    match sid with
    | none =>
      simp only [candVariants, List.map] at hl ⊢
      simp at hl
      rcases hl with rfl | rfl <;> simp [postVariants, candVariants, hne]
    | some s' =>
      by_cases hs : s' = ""
      · simp only [candVariants, hs] at hl ⊢
        simp at hl
        rcases hl with rfl | rfl <;> simp [postVariants, candVariants, hne, hs]
      · simp only [candVariants, hs] at hl ⊢
        simp [hs] at hl
        rcases hl with rfl | rfl | rfl | rfl <;>
          simp [postVariants, candVariants, hne, hs, List.erase]

/-- Closed instance of `post_endpoint_fallback`: with the session id
`"S"` captured and `"messages"` recorded as the last working label, the
next call tries `messages` first, then the others in the base order. -/
theorem post_endpoint_fallback_witness :
    (postVariants "http://h/mcp" "http://h/messages" (some "S")
        (recordLastWorking none "messages")).map Variant.label
      = "messages" :: ((candVariants "http://h/mcp" "http://h/messages"
          (some "S")).map Variant.label).erase "messages" :=
  (post_endpoint_fallback "http://h/mcp" "http://h/messages" "S" "messages" none
    (some "S") (fun _ => ⟨200, none⟩) ⟨"", [], ""⟩ []).2.2.2.2.2
    (by decide) (by decide)

/- ===== Protocol version negotiation (`smoke.py`, function
   `initialize`, lines 34-69) =====

   The function loops over `PROTO_CANDIDATES`, POSTing an initialize
   call per candidate.  A response is reduced to its HTTP status, body
   text, whether `parse_json_or_sse` succeeded, whether the parsed data
   carries an `error` member, the `protocolVersion` of its `result`
   member (if any), and the `Mcp-Session-Id` response header. -/

/-- Observable response to an initialize POST for one candidate. -/
structure InitResponse where
  status : Nat
  text : String
  parseOk : Bool
  hasError : Bool
  resultProtocolVersion : Option String
  sessionId : Option String

/-- Outcome of the negotiation loop. -/
inductive InitOutcome where
  | accepted (negotiated : String) (sid : Option String)
  | httpFailure (status : Nat)
  | parseFailure
  | rpcFailure
  | exhausted
deriving DecidableEq

/-- The version-specific rejection test of line 53: HTTP 400 with a body
mentioning `protocol` or `version` (case-insensitively). -/
def versionReject (r : InitResponse) : Prop :=
  r.status = 400
    ∧ (strContains (strToLower r.text) "protocol" = true
        ∨ strContains (strToLower r.text) "version" = true)

instance (r : InitResponse) : Decidable (versionReject r) := by
  unfold versionReject; infer_instance

/-- The negotiation loop of `smoke.py` lines 38-69: try each candidate
protocol version in order; a version-specific 400 moves to the next
candidate, any other non-200 is a fatal HTTP failure, an unparsable body
or an error envelope is fatal, and an accepted response stops the loop
with the negotiated version (the result's `protocolVersion` if present,
else the candidate sent) and the session id header.  An exhausted
candidate list is the final `initialize: all protocol versions failed`
error. -/
def negotiateInit (respond : String → InitResponse) : List String → InitOutcome
  | [] => .exhausted
  | proto :: rest =>
    let r := respond proto
    if r.status ≠ 200 then
      if versionReject r then negotiateInit respond rest
      else .httpFailure r.status
    else if r.parseOk = false then .parseFailure
    else if r.hasError then .rpcFailure
    else .accepted (r.resultProtocolVersion.getD proto) r.sessionId

/-- C5: the negotiation sends the first candidate version, retries the
next candidate exactly when the server rejects specifically for
unsupported version, stops at the first accepted version recording the
negotiated version and any session identifier returned, and fails
fatally with a negotiation error once every candidate is exhausted. -/
theorem proto_negotiation (respond : String → InitResponse) (p : String)
    (ps rest : List String) :
    ((respond p).status = 200 → (respond p).parseOk = true → (respond p).hasError = false →
       negotiateInit respond (p :: rest)
         = .accepted (((respond p).resultProtocolVersion).getD p) (respond p).sessionId)
    ∧ (versionReject (respond p) →
       negotiateInit respond (p :: rest) = negotiateInit respond rest)
    ∧ ((∀ q ∈ ps, versionReject (respond q)) → negotiateInit respond ps = .exhausted) := by
  refine ⟨?_, ?_, ?_⟩
  · intro hs hp he
    simp [negotiateInit, hs, hp, he]
  · intro hv
    have h4 : (respond p).status = 400 := hv.1
    simp [negotiateInit, h4, hv]
  · intro hall
    induction ps with
    | nil => simp [negotiateInit]
    | cons q qs ih =>
      have hv := hall q (List.mem_cons_self q qs)
      have h4 : (respond q).status = 400 := hv.1
      simp only [negotiateInit, h4]
      simp [hv]
      exact ih fun x hx => hall x (List.mem_cons_of_mem q hx)

/-- Closed instance of `proto_negotiation`: a server rejecting
`2024-11-05` for unsupported version and accepting `2025-06-18` makes
the loop retry and stop at the second candidate; a server rejecting
everything exhausts the list. -/
theorem proto_negotiation_witness :
    negotiateInit
      (fun q => if q = "2024-11-05"
        then ⟨400, "unsupported protocol version", true, false, none, none⟩
        else ⟨200, "", true, false, some "2025-06-18", some "sess-1"⟩)
      ["2024-11-05", "2025-06-18"]
      = .accepted "2025-06-18" (some "sess-1") := by
  have step :=
    (proto_negotiation
      (fun q => if q = "2024-11-05"
        then ⟨400, "unsupported protocol version", true, false, none, none⟩
        else ⟨200, "", true, false, some "2025-06-18", some "sess-1"⟩)
      "2024-11-05" [] ["2025-06-18"]).2.1 (by decide)
  have stop :=
    (proto_negotiation
      (fun q => if q = "2024-11-05"
        then ⟨400, "unsupported protocol version", true, false, none, none⟩
        else ⟨200, "", true, false, some "2025-06-18", some "sess-1"⟩)
      "2025-06-18" [] []).1 (by decide) (by decide) (by decide)
  rw [step, stop]
  decide

/- ===== Python values =====

   A small model of the JSON-like Python values the executor handles:
   tool descriptors, snapshot nodes and their attribute dicts. -/

/-- A Python/JSON value. -/
inductive Prim where
  | pNull
  | pBool (b : Bool)
  | pInt (n : Int)
  | pStr (s : String)
  | pList (xs : List Prim)
  | pDict (fields : List (String × Prim))

/-- Python truthiness of a value. -/
def pyTruthy : Prim → Bool
  | .pNull => false
  | .pBool b => b
  | .pInt n => decide (n ≠ 0)
  | .pStr s => decide (s ≠ "")
  | .pList xs => !xs.isEmpty
  | .pDict fs => !fs.isEmpty

/-- A tool descriptor as delivered by `tools/list`: a Python dict. -/
abbrev ToolDict := List (String × Prim)

/- ===== Tool catalog storage and its rebuild =====

   `MCPConnector.list_tools` (`mcp_client.py` lines 338-343) stores
   `self.available_tools = {t.get("name") for t in tools if t.get("name")}`
   — a set of the truthy `name` values.  `invoke_server_node`
   (`executor.py` lines 283-286) and `try_visit` (lines 166-169) rebuild
   a tool-name set from `conn.available_tools` as
   `{t.get("name") for t in (conn.available_tools or [])
     if isinstance(t, dict) and "name" in t}`. -/

/-- The collection stored in `available_tools` by `list_tools`: the
truthy `name` values of the listed tools (the Python set is modelled as
the list of kept values; only emptiness matters below). -/
def availableTools (tools : List ToolDict) : List Prim :=
  tools.filterMap (fun t =>
    match lookupKey "name" t with
    | some v => if pyTruthy v then some v else none
    | none => none)

/-- The tool-name set rebuilt by `invoke_server_node` and `try_visit`:
keep only elements that are dicts carrying a `name` key, and take that
key's value. -/
def rebuildToolNames (vals : List Prim) : List Prim :=
  vals.filterMap (fun t =>
    match t with
    | .pDict fs => lookupKey "name" fs
    | _ => none)

theorem rebuildToolNames_availableTools_eq_nil {tools : List ToolDict}
    (hnames : ∀ t ∈ tools, ∀ v, lookupKey "name" t = some v → ∃ s, v = .pStr s) :
    rebuildToolNames (availableTools tools) = [] := by
  rw [rebuildToolNames, List.filterMap_eq_nil_iff]
  intro v hv
  rw [availableTools, List.mem_filterMap] at hv
  obtain ⟨t, ht, hkeep⟩ := hv
  cases hk : lookupKey "name" t with
  | none => rw [hk] at hkeep; exact absurd hkeep (by simp)
  | some w =>
    rw [hk] at hkeep
    obtain ⟨s, rfl⟩ := hnames t ht w hk
    have hkeep' : (if pyTruthy (Prim.pStr s) = true then some (Prim.pStr s) else none)
        = some v := hkeep
    by_cases htr : pyTruthy (Prim.pStr s) = true
    · rw [if_pos htr] at hkeep'
      cases hkeep'
      rfl
    · rw [if_neg htr] at hkeep'
      exact absurd hkeep' (by simp)

/- ===== The orchestration step (`executor.py`, `invoke_server_node`,
   lines 263-317) =====

   Wall-clock times and the uniform random fraction are rationals; the
   outcome of entering the connector (`__aenter__`: SSE connect,
   initialize, tools/list) and of the per-target visiting loop are
   supplied as environment oracles, `Except` errors standing for raised
   exceptions. -/

/-- A server record of the registry (`registry.py`). -/
structure ServerRec where
  id : String
  base_url : String
  healthy : Bool

/-- A shortlist candidate as produced by selection. -/
structure Candidate where
  server_id : String
  score : Rat

/-- The slice of `AgentState` that `invoke_server_node` reads. -/
structure InvokeState where
  idx : Nat
  shortlist : List Candidate
  servers : List ServerRec
  targets : List String
  backoff_until : List (String × Rat)

/-- Environment of one invoke step: the two clock reads, the random
fraction, the connector-entry outcome and the visiting-loop outcome. -/
structure InvokeEnv where
  now : Rat
  failTime : Rat
  rand : Rat
  conn : Except String (List ToolDict)
  visit : Except String Unit

/-- The randomized backoff delay of line 314:
`wait = 2.0 * (1 + random.random())`. -/
def backoffDelay (r : Rat) : Rat := 2 * (1 + r)

/-- Result of one invoke step (the dict merged into the agent state). -/
inductive InvokeOut where
  | noMoreCandidates (msg : String)
  | keyErr (msg : String)
  | backoffSkip (msg : String) (backoff : List (String × Rat))
  | noTools (msg : String) (backoff : List (String × Rat))
  | ok (serverId : String) (visited : List String) (backoff : List (String × Rat))
  | failed (msg : String) (backoff : List (String × Rat))

/-- The targets actually visited by an invoke step. -/
def visitedTargets : InvokeOut → List String
  | .ok _ v _ => v
  | _ => []

/-- The body of the `try` block (lines 278-317): entering the connector,
the empty-tool check, the visiting loop, the success bookkeeping, and
the `except` handler that sets the randomized backoff. -/
def invokeTry (st : InvokeState) (env : InvokeEnv) (srvId : String) : InvokeOut :=
  match env.conn with
  | .error e =>
    .failed (srvId ++ " failed: " ++ e)
      (setKey srvId (env.failTime + backoffDelay env.rand) st.backoff_until)
  | .ok tools =>
    if (rebuildToolNames (availableTools tools)).isEmpty then
      .noTools (srvId ++ " has no tools after initialize") st.backoff_until
    else
      match env.visit with
      | .error e =>
        .failed (srvId ++ " failed: " ++ e)
          (setKey srvId (env.failTime + backoffDelay env.rand) st.backoff_until)
      | .ok _ => .ok srvId st.targets (eraseKey srvId st.backoff_until)

/-- `invoke_server_node` (lines 263-317): end-of-shortlist check,
`find_server` resolution, the per-server backoff check (Python
truthiness of the stored timestamp), then the guarded execute step of
`invokeTry`. -/
def invokeServerNode (st : InvokeState) (env : InvokeEnv) : InvokeOut :=
  if st.shortlist.length ≤ st.idx then .noMoreCandidates "No more candidates."
  else
    match st.shortlist[st.idx]? with
    | none => .noMoreCandidates "No more candidates."
    | some cand =>
      match st.servers.find? (fun sv => sv.id == cand.server_id) with
      | none => .keyErr ("Server " ++ cand.server_id ++ " not found")
      | some srv =>
        match lookupKey srv.id st.backoff_until with
        | some u =>
          if u ≠ 0 ∧ env.now < u then
            .backoffSkip (srv.id ++ " backoff in effect") st.backoff_until
          else invokeTry st env srv.id
        | none => invokeTry st env srv.id

theorem lookupKey_setKey_self {κ β : Type} [DecidableEq κ] (k : κ) (v : β)
    (m : List (κ × β)) : lookupKey k (setKey k v m) = some v := by
  induction m with
  | nil => simp [setKey, lookupKey]
  | cons hd tl ih =>
    obtain ⟨a, b⟩ := hd
    by_cases h : a = k
    · simp [setKey, h, lookupKey]
    · simp [setKey, h, lookupKey, ih]

/-- C1: `list_tools` stores the discovered catalog as a set of name
strings, while `invoke_server_node` and `try_visit` rebuild their
tool-name set keeping only dict elements carrying a `name` key, so for
every successfully opened connector — whatever `tools/list` returned —
the rebuilt tool-name set is empty and `invoke_server_node` returns the
`has no tools after initialize` error, leaving the backoff map unchanged
and attempting no target. -/
theorem orchestrator_rebuilds_empty_toolset (st : InvokeState) (env : InvokeEnv)
    (tools : List ToolDict) (cand : Candidate) (srv : ServerRec)
    (hlen : st.idx < st.shortlist.length)
    (hcand : st.shortlist[st.idx]? = some cand)
    (hsrv : st.servers.find? (fun sv => sv.id == cand.server_id) = some srv)
    (hbo : ∀ u, lookupKey srv.id st.backoff_until = some u → ¬(u ≠ 0 ∧ env.now < u))
    (hconn : env.conn = .ok tools)
    (hnames : ∀ t ∈ tools, ∀ v, lookupKey "name" t = some v → ∃ s, v = .pStr s) :
    rebuildToolNames (availableTools tools) = []
    ∧ invokeServerNode st env
        = .noTools (srv.id ++ " has no tools after initialize") st.backoff_until
    ∧ visitedTargets (invokeServerNode st env) = [] := by
  have hreb := rebuildToolNames_availableTools_eq_nil hnames
  have htry : invokeTry st env srv.id
      = .noTools (srv.id ++ " has no tools after initialize") st.backoff_until := by
    rw [invokeTry, hconn]
    simp [hreb]
  have hmain : invokeServerNode st env
      = .noTools (srv.id ++ " has no tools after initialize") st.backoff_until := by
    rw [invokeServerNode, if_neg (Nat.not_le.mpr hlen)]
    simp only [hcand, hsrv]
    cases hu : lookupKey srv.id st.backoff_until with
    | none => exact htry
    | some u => simp only [if_neg (hbo u hu)]; exact htry
  exact ⟨hreb, hmain, by rw [hmain]; rfl⟩

/-- Closed instance of `orchestrator_rebuilds_empty_toolset`: a server
listing one perfectly well-formed tool still yields the no-tools
error. -/
theorem orchestrator_rebuilds_empty_toolset_witness :
    invokeServerNode
      ⟨0, [⟨"s1", 1⟩], [⟨"s1", "http://h/mcp", true⟩], ["http://target"], []⟩
      ⟨0, 0, 0, .ok [[("name", Prim.pStr "browser_navigate")]], .ok ()⟩
      = .noTools ("s1" ++ " has no tools after initialize") [] :=
  (orchestrator_rebuilds_empty_toolset
    ⟨0, [⟨"s1", 1⟩], [⟨"s1", "http://h/mcp", true⟩], ["http://target"], []⟩
    ⟨0, 0, 0, .ok [[("name", Prim.pStr "browser_navigate")]], .ok ()⟩
    [[("name", Prim.pStr "browser_navigate")]] ⟨"s1", 1⟩ ⟨"s1", "http://h/mcp", true⟩
    (by decide) rfl rfl
    (fun u h => absurd h (by simp [lookupKey]))
    rfl
    (by
      intro t ht v hv
      simp only [List.mem_singleton] at ht
      subst ht
      have hv' : Prim.pStr "browser_navigate" = v := by simpa [lookupKey] using hv
      exact ⟨"browser_navigate", hv'.symm⟩)).2.1

/-- C7: when the execute step for a server fails at time `T`, the
backoff map gets `backoff-until = T + 2 * (1 + rand)` for that server
and the error is recorded; while `now < backoff-until` the invoke step
returns the descriptive backoff error without any network attempt
(whatever the connector oracle would do), and at or after
`backoff-until` the server is attempted again. -/
theorem backoff_set_and_respected (st : InvokeState) (env : InvokeEnv)
    (cand : Candidate) (srv : ServerRec) (e : String)
    (hlen : st.idx < st.shortlist.length)
    (hcand : st.shortlist[st.idx]? = some cand)
    (hsrv : st.servers.find? (fun sv => sv.id == cand.server_id) = some srv)
    (hbo : lookupKey srv.id st.backoff_until = none)
    (hconn : env.conn = .error e)
    (hft : 0 ≤ env.failTime) (hr0 : 0 ≤ env.rand) :
    invokeServerNode st env
      = .failed (srv.id ++ " failed: " ++ e)
          (setKey srv.id (env.failTime + backoffDelay env.rand) st.backoff_until)
    ∧ lookupKey srv.id (setKey srv.id (env.failTime + backoffDelay env.rand) st.backoff_until)
        = some (env.failTime + backoffDelay env.rand)
    ∧ (∀ env' : InvokeEnv, env'.now < env.failTime + backoffDelay env.rand →
        invokeServerNode
          { st with backoff_until :=
              setKey srv.id (env.failTime + backoffDelay env.rand) st.backoff_until } env'
        = .backoffSkip (srv.id ++ " backoff in effect")
            (setKey srv.id (env.failTime + backoffDelay env.rand) st.backoff_until))
    ∧ (∀ env' : InvokeEnv, env.failTime + backoffDelay env.rand ≤ env'.now →
        invokeServerNode
          { st with backoff_until :=
              setKey srv.id (env.failTime + backoffDelay env.rand) st.backoff_until } env'
        = invokeTry
            { st with backoff_until :=
                setKey srv.id (env.failTime + backoffDelay env.rand) st.backoff_until }
            env' srv.id) := by
  have hdelay : backoffDelay env.rand = 2 + 2 * env.rand := by rw [backoffDelay]; ring
  have hpos : 0 < env.failTime + backoffDelay env.rand := by rw [hdelay]; linarith
  have hlook := lookupKey_setKey_self srv.id (env.failTime + backoffDelay env.rand)
    st.backoff_until
  refine ⟨?_, hlook, ?_, ?_⟩
  · rw [invokeServerNode, if_neg (Nat.not_le.mpr hlen)]
    simp only [hcand, hsrv, hbo]
    rw [invokeTry, hconn]
  · intro env' hlt
    rw [invokeServerNode, if_neg (Nat.not_le.mpr hlen)]
    simp only [hcand, hsrv, hlook]
    rw [if_pos ⟨ne_of_gt hpos, hlt⟩]
  · intro env' hge
    rw [invokeServerNode, if_neg (Nat.not_le.mpr hlen)]
    simp only [hcand, hsrv, hlook]
    rw [if_neg (fun h => absurd h.2 (not_lt.mpr hge))]

/-- Closed instance of `backoff_set_and_respected`: a failure at time 0
with random fraction 0 sets backoff-until 2 and records the error. -/
theorem backoff_set_and_respected_witness :
    invokeServerNode
      ⟨0, [⟨"s1", 1⟩], [⟨"s1", "http://h/mcp", true⟩], ["http://target"], []⟩
      ⟨0, 0, 0, .error "boom", .ok ()⟩
      = .failed ("s1" ++ " failed: " ++ "boom") (setKey "s1" (0 + backoffDelay 0) []) :=
  (backoff_set_and_respected
    ⟨0, [⟨"s1", 1⟩], [⟨"s1", "http://h/mcp", true⟩], ["http://target"], []⟩
    ⟨0, 0, 0, .error "boom", .ok ()⟩
    ⟨"s1", 1⟩ ⟨"s1", "http://h/mcp", true⟩ "boom"
    (by decide) rfl rfl rfl rfl (by decide) (by decide)).1

/- ===== The orchestration loop (`graph.py`: select → invoke →
   should_continue → pick_next → invoke → …, with `pick_next_node` and
   `should_continue` from `executor.py` lines 320-331 and the counters
   set by `select_candidates_node`, `selection.py` lines 136-141) ===== -/

/-- The loop-relevant slice of the agent state. -/
structure LoopSt where
  idx : Nat
  attempts : Nat
  maxAttempts : Nat
  shortlistLen : Nat
  hasResult : Bool

/-- `pick_next_node`: increment the cursor and the attempt counter. -/
def pickNextNode (s : LoopSt) : LoopSt :=
  { s with idx := s.idx + 1, attempts := s.attempts + 1 }

/-- `should_continue`: `false` is the `done` edge, `true` the `loop`
edge back through `pick_next`. -/
def shouldContinue (s : LoopSt) : Bool :=
  if s.hasResult then false
  else if s.maxAttempts ≤ s.attempts then false
  else if s.shortlistLen ≤ s.idx then false
  else true

theorem shouldContinue_true_iff (s : LoopSt) :
    shouldContinue s = true ↔
      s.hasResult = false ∧ s.attempts < s.maxAttempts ∧ s.idx < s.shortlistLen := by
  unfold shouldContinue
  split_ifs with h1 h2 h3 <;> simp_all

/-- The counters installed by `select_candidates_node`: cursor 0,
attempts 0, budget `max(5, 2 * len(filtered))`. -/
def selectBudget (shortlistLen : Nat) : LoopSt :=
  ⟨0, 0, max 5 (2 * shortlistLen), shortlistLen, false⟩

/-- The number of invoke attempts the compiled graph performs from a
given state: one invoke (its success supplied by an oracle keyed by the
attempt counter), then, if `should_continue` says `loop`, `pick_next`
and the rest of the run. -/
def loopInvokeCount (oracle : Nat → Bool) (s : LoopSt) : Nat :=
  if h : shouldContinue { s with hasResult := s.hasResult || oracle s.attempts } = true
  then 1 + loopInvokeCount oracle
    (pickNextNode { s with hasResult := s.hasResult || oracle s.attempts })
  else 1
termination_by s.maxAttempts - s.attempts
decreasing_by
  have hc := (shouldContinue_true_iff _).mp h
  simp only [pickNextNode] at hc ⊢
  omega

theorem loopInvokeCount_le_aux (oracle : Nat → Bool) (k : Nat) :
    ∀ s : LoopSt, s.maxAttempts - s.attempts ≤ k →
      loopInvokeCount oracle s
        ≤ min (s.maxAttempts - s.attempts) (s.shortlistLen - s.idx) + 1 := by
  induction k with
  | zero =>
    intro s hk
    rw [loopInvokeCount]
    split
    next h =>
      have hc := (shouldContinue_true_iff _).mp h
      simp only at hc
      omega
    next => omega
  | succ n ih =>
    intro s hk
    rw [loopInvokeCount]
    split
    next h =>
      have hc := (shouldContinue_true_iff _).mp h
      simp only at hc
      have hb := ih (pickNextNode { s with hasResult := s.hasResult || oracle s.attempts })
        (by simp only [pickNextNode]; omega)
      simp only [pickNextNode] at hb ⊢
      omega
    next => omega

/-- C8: the orchestration loop always terminates; with attempt budget
`A = max(5, 2 * shortlist length)` set at Select, it performs at most
`max(A, 2L)` invoke attempts before reaching Done, the cursor and
attempt counter both strictly increasing at every `pick_next` and the
loop stopping as soon as a result is set, the attempt counter reaches
the budget, or the cursor passes the end of the shortlist. -/
theorem loop_attempt_bound (oracle : Nat → Bool) (L : Nat) :
    loopInvokeCount oracle (selectBudget L) ≤ max (max 5 (2 * L)) (2 * L)
    ∧ (∀ s : LoopSt, (pickNextNode s).idx = s.idx + 1
        ∧ (pickNextNode s).attempts = s.attempts + 1)
    ∧ (∀ s : LoopSt, s.hasResult = true → shouldContinue s = false)
    ∧ (∀ s : LoopSt, s.maxAttempts ≤ s.attempts → shouldContinue s = false)
    ∧ (∀ s : LoopSt, s.shortlistLen ≤ s.idx → shouldContinue s = false) := by
  refine ⟨?_, fun s => ⟨rfl, rfl⟩, ?_, ?_, ?_⟩
  · have hb := loopInvokeCount_le_aux oracle (max 5 (2 * L)) (selectBudget L) (by simp [selectBudget])
    simp only [selectBudget] at hb ⊢
    omega
  · intro s h
    unfold shouldContinue
    split_ifs
    all_goals rfl
  · intro s h
    unfold shouldContinue
    split_ifs
    all_goals rfl
  · intro s h
    unfold shouldContinue
    split_ifs
    all_goals rfl

/-- Closed instance of `loop_attempt_bound`: with a shortlist of two
always-failing servers the loop performs at most `max(5, 4)` invoke
attempts, and a state whose result is set stops the loop. -/
theorem loop_attempt_bound_witness :
    loopInvokeCount (fun _ => false) (selectBudget 2) ≤ max (max 5 (2 * 2)) (2 * 2)
    ∧ shouldContinue ⟨0, 0, 5, 2, true⟩ = false :=
  ⟨(loop_attempt_bound (fun _ => false) 2).1,
   (loop_attempt_bound (fun _ => false) 2).2.2.1 ⟨0, 0, 5, 2, true⟩ rfl⟩

/- ===== Snapshot parsing (`executor.py` lines 91-122) ===== -/

/-- A snapshot node: its fields (a Python dict) and its children
(`node.get("children", []) or []`; a missing or null `children` entry is
the empty list). -/
inductive SNode where
  | mk (fields : List (String × Prim)) (children : List SNode)

def SNode.fields : SNode → List (String × Prim)
  | .mk fs _ => fs

def SNode.children : SNode → List SNode
  | .mk _ cs => cs

mutual

/-- `_traverse` (lines 91-94): yield the node, then recurse into its
children, pre-order. -/
def SNode.traverse : SNode → List SNode
  | .mk fs cs => .mk fs cs :: traverseChildren cs

def traverseChildren : List SNode → List SNode
  | [] => []
  | c :: cs => SNode.traverse c ++ traverseChildren cs

end

/-- `attrs = node.get("attributes") or {}` (line 99/116): the attribute
dict of a node, empty when absent or falsy (snapshots never carry a
truthy non-dict there — Python would raise on it). -/
def attrsOf (n : SNode) : List (String × Prim) :=
  match lookupKey "attributes" n.fields with
  | some (.pDict fs) => fs
  | _ => []

/-- `attrs.get("id") == target_id`: true exactly when the attribute is
that string. -/
def matchesId (tid : String) (n : SNode) : Bool :=
  match lookupKey "id" (attrsOf n) with
  | some (.pStr s) => s == tid
  | _ => false

/-- ASCII whitespace, as stripped by Python's `str.strip()` on the
snapshot strings the code handles. -/
def isSpaceChar (c : Char) : Bool := c == ' ' || c == '\t' || c == '\n' || c == '\r'

def dropLeading : List Char → List Char
  | [] => []
  | c :: cs => if isSpaceChar c then dropLeading cs else c :: cs

/-- `s.strip()`: drop leading and trailing whitespace. -/
def strTrim (s : String) : String :=
  ⟨(dropLeading ((dropLeading s.data).reverse)).reverse⟩

/-- The inner loop of `extract_text_by_id` (lines 117-121): the first of
the keys `name`, `value`, `description`, `text` holding a string with
non-blank strip is returned stripped; otherwise the empty string. -/
def firstText (fs : List (String × Prim)) : List String → String
  | [] => ""
  | k :: ks =>
    match lookupKey k fs with
    | some (.pStr s) => if strTrim s ≠ "" then strTrim s else firstText fs ks
    | _ => firstText fs ks

/-- The text-bearing keys probed by `extract_text_by_id` (line 117). -/
def textKeys : List String := ["name", "value", "description", "text"]

/-- `extract_text_by_id` (lines 113-122): the first traversed node whose
attributes carry the requested id yields its first non-blank text field
(or the empty string); no such node yields `None`. -/
def extract_text_by_id (root : SNode) (tid : String) : Option String :=
  match (SNode.traverse root).find? (matchesId tid) with
  | some n => some (firstText n.fields textKeys)
  | none => none

theorem firstText_eq_empty {fs : List (String × Prim)} :
    ∀ {ks : List String},
      (∀ k ∈ ks, ∀ s, lookupKey k fs = some (.pStr s) → strTrim s = "") →
      firstText fs ks = "" := by
  intro ks
  induction ks with
  | nil => intro _; rfl
  | cons k ks ih =>
    intro h
    have hrest := ih fun x hx => h x (List.mem_cons_of_mem k hx)
    cases hk : lookupKey k fs with
    | none => simpa [firstText, hk] using hrest
    | some v =>
      cases v with
      | pStr s =>
        have hs : strTrim s = "" := h k (List.mem_cons_self k ks) s hk
        simp [firstText, hk, hs, hrest]
      | pNull => simpa [firstText, hk] using hrest
      | pBool b => simpa [firstText, hk] using hrest
      | pInt n => simpa [firstText, hk] using hrest
      | pList xs => simpa [firstText, hk] using hrest
      | pDict fs2 => simpa [firstText, hk] using hrest

/-- C9: `extract_text_by_id` distinguishes absence from emptiness: if no
traversed node's attributes carry the requested domain id the result is
`None`, and if matching nodes exist but none of their text-bearing
fields holds non-blank text the result is the empty string. -/
theorem extract_text_absent_vs_empty (root : SNode) (tid : String) :
    ((∀ n ∈ SNode.traverse root, matchesId tid n = false) →
       extract_text_by_id root tid = none)
    ∧ ((∃ n ∈ SNode.traverse root, matchesId tid n = true) →
       (∀ n ∈ SNode.traverse root, matchesId tid n = true →
          ∀ k ∈ textKeys, ∀ s, lookupKey k n.fields = some (.pStr s) → strTrim s = "") →
       extract_text_by_id root tid = some "") := by
  constructor
  · intro h
    rw [extract_text_by_id]
    have : (SNode.traverse root).find? (matchesId tid) = none :=
      List.find?_eq_none.mpr fun n hn => by simp [h n hn]
    rw [this]
  · intro hex hblank
    have hsome : ((SNode.traverse root).find? (matchesId tid)).isSome := by
      rw [List.find?_isSome]
      obtain ⟨n, hn, hp⟩ := hex
      exact ⟨n, hn, hp⟩
    obtain ⟨m, hm⟩ := Option.isSome_iff_exists.mp hsome
    have hmem : m ∈ SNode.traverse root := List.mem_of_find?_eq_some hm
    have hpm : matchesId tid m = true := List.find?_some hm
    have hft : firstText m.fields textKeys = "" :=
      firstText_eq_empty (hblank m hmem hpm)
    rw [extract_text_by_id, hm]
    show some (firstText m.fields textKeys) = some ""
    rw [hft]

/-- Closed instance of `extract_text_absent_vs_empty` on the two
fixtures: a tree without the requested id yields `None`; a tree whose
matching node has only blank text yields the empty string. -/
theorem extract_text_absent_vs_empty_witness :
    extract_text_by_id
      (.mk [("attributes", Prim.pDict [("id", Prim.pStr "other")])] []) "verdict" = none
    ∧ extract_text_by_id
      (.mk [] [.mk [("attributes", Prim.pDict [("id", Prim.pStr "verdict")]),
                    ("name", Prim.pStr "  ")] []]) "verdict" = some "" :=
  ⟨(extract_text_absent_vs_empty
      (.mk [("attributes", Prim.pDict [("id", Prim.pStr "other")])] []) "verdict").1
      (by decide),
   (extract_text_absent_vs_empty
      (.mk [] [.mk [("attributes", Prim.pDict [("id", Prim.pStr "verdict")]),
                    ("name", Prim.pStr "  ")] []]) "verdict").2
      (by decide)
      (by
        intro n hn hmatch k hk s hs
        simp only [SNode.traverse, traverseChildren, List.append_nil, List.mem_cons,
          List.mem_singleton, List.not_mem_nil, or_false] at hn
        rcases hn with rfl | rfl
        · exact absurd hmatch (by decide)
        · simp only [textKeys, List.mem_cons, List.mem_singleton, List.not_mem_nil,
            or_false] at hk
          rcases hk with rfl | rfl | rfl | rfl
          · have hseq : s = "  " := by
              have hs' : some (Prim.pStr "  ") = some (Prim.pStr s) := by
                simpa [SNode.fields, lookupKey] using hs
              cases hs'
              rfl
            subst hseq
            decide
          · exact absurd hs (by simp [SNode.fields, lookupKey])
          · exact absurd hs (by simp [SNode.fields, lookupKey])
          · exact absurd hs (by simp [SNode.fields, lookupKey]))⟩

/- ===== Verdict classification (`executor.py`, `parse_verdict_text`,
   lines 125-133) ===== -/

/-- The dict returned by `parse_verdict_text`. -/
structure VerdictRes where
  success : Option Bool
  raw : Option String
deriving DecidableEq

/-- `parse_verdict_text`: a falsy verdict (missing or empty) is
undetermined; else a case-insensitive keyword match — `pass` wins over
`fail`/`error`, anything else is undetermined. -/
def parse_verdict_text (verdict : Option String) : VerdictRes :=
  match verdict with
  | none => ⟨none, none⟩
  | some s =>
    if s = "" then ⟨none, some s⟩
    else
      if strContains (strToLower s) "pass" then ⟨some true, some s⟩
      else if strContains (strToLower s) "fail" || strContains (strToLower s) "error" then
        ⟨some false, some s⟩
      else ⟨none, some s⟩

/-- C10: `classify-verdict` is a case-insensitive keyword match: a
string containing `pass` yields success, a string containing `fail` or
`error` but not `pass` yields failure, and every other string —
including the empty or missing verdict — yields undetermined. -/
theorem classify_verdict_keywords (s : String) :
    (strContains (strToLower s) "pass" = true →
       (parse_verdict_text (some s)).success = some true)
    ∧ (strContains (strToLower s) "pass" = false →
       (strContains (strToLower s) "fail" = true ∨ strContains (strToLower s) "error" = true) →
       (parse_verdict_text (some s)).success = some false)
    ∧ (strContains (strToLower s) "pass" = false →
       strContains (strToLower s) "fail" = false →
       strContains (strToLower s) "error" = false →
       (parse_verdict_text (some s)).success = none)
    ∧ (parse_verdict_text none).success = none := by
  refine ⟨?_, ?_, ?_, rfl⟩
  · intro hp
    by_cases hs : s = ""
    · subst hs
      exact absurd hp (by decide)
    · simp [parse_verdict_text, hs, hp]
  · intro hp hfe
    by_cases hs : s = ""
    · subst hs
      rcases hfe with h | h <;> exact absurd h (by decide)
    · rcases hfe with h | h <;> simp [parse_verdict_text, hs, hp, h]
  · intro hp hf he
    by_cases hs : s = ""
    · subst hs
      simp [parse_verdict_text]
    · simp [parse_verdict_text, hs, hp, hf, he]

/-- Closed instance of `classify_verdict_keywords`: `PASS: success` is
classified as success, `Timed out` as undetermined. -/
theorem classify_verdict_keywords_witness :
    (parse_verdict_text (some "PASS: success")).success = some true
    ∧ (parse_verdict_text (some "Timed out")).success = none :=
  ⟨(classify_verdict_keywords "PASS: success").1 (by decide),
   (classify_verdict_keywords "Timed out").2.2.1 (by decide) (by decide) (by decide)⟩

end CaptchaMcp
